import Mathlib

/-!
# Verification of the cdm plan-generation / apply / check engine

A shallow embedding, in Lean 4, of the Go program under `src/`:

* `internal/plan/generator.go` — scanner, override merge, path-mapping remap,
  plan assembly (`Generator.Generate`, `Generator.applyPathMappings`);
* the `fs` package — symlink primitives and the `CreateSymlink` state machine;
* the `apply` package — `Applier.Apply` batch loop;
* the `check` package — `Checker.checkLink` / `Checker.CheckPlan`;
* `pkg/types/types.go` — the data model.

Conventions of the embedding:

* Paths are plain strings; the inputs used in concrete theorems are already
  "clean" in the sense of Go's `filepath.Clean` (no `.`/`..` segments, no
  duplicate or trailing slashes), so `filepath.Join base rel` on such inputs
  is string concatenation with a `/` separator.
* The filesystem is a finite association list from absolute path to node.
  Permission failures of direct mutations are modelled by a `denied` path
  list, and the success of the `sudo` fallback helper by a `sudoOk` flag.
* Go map *content* is deterministic, but `range` iteration order is not.
  The merge map built by `Generator.Generate` is therefore modelled as an
  insertion-ordered association list (`mergeEntries`, first-seen order), and
  every possible `range` order is a permutation of it; theorems about the
  emitted order quantify over (or exhibit) such permutations.  Likewise the
  `configs` map of `applyPathMappings` is passed as a list in some iteration
  order.
-/

namespace Cdm

/-! ## Data model (`pkg/types/types.go`) -/

/-- `types.PathMapping`. -/
structure PathMapping where
  src : String
  tgt : String
deriving DecidableEq, Repr

/-- `types.Config` (`.cdm.conf.json`).  `hooksPresent` models `Hooks != nil`. -/
structure Config where
  version : String
  pathMappings : List PathMapping
  exclude : List String
  linkFolders : List String
  hooksPresent : Bool
deriving DecidableEq, Repr

/-- `types.FileEntry`: a scanned link candidate. -/
structure FileEntry where
  source : String
  target : String
  sourcePath : String
  reason : String
deriving DecidableEq, Repr

/-- `types.Link`: the persisted unit of a plan. -/
structure Link where
  source : String
  target : String
  action : String
  reason : String
deriving DecidableEq, Repr

/-- `types.Stats`. -/
structure Stats where
  total : Nat
  «new» : Nat
  override : Nat
  skip : Nat
deriving DecidableEq, Repr

/-- `types.Plan`.  The `timestamp` field is omitted: every claim under
consideration explicitly ignores it. -/
structure Plan where
  version : String
  hostname : String
  sources : List String
  links : List Link
  stats : Stats
deriving DecidableEq, Repr

/-! ## Path helpers (`path/filepath`, `strings`)

Strings are manipulated through their character lists so that every
definition evaluates by plain kernel reduction.  Go's `strings` functions
work on bytes; on the ASCII paths handled here character positions and byte
positions coincide. -/

/-- `strings.HasPrefix s p`. -/
def strStarts (s p : String) : Bool :=
  p.data.isPrefixOf s.data

/-- `strings.TrimPrefix`. -/
def trimStart (s p : String) : String :=
  if strStarts s p then s.drop p.length else s

/-- The characters after the last `'/'`. -/
def lastComp (acc : List Char) : List Char → List Char
  | [] => acc
  | c :: rest => if c = '/' then lastComp [] rest else lastComp (acc ++ [c]) rest

/-- `filepath.Base` (for paths without redundant interior slashes): strip
trailing slashes, then take the part after the last slash; `""` gives `"."`
and an all-slash path gives `"/"`. -/
def baseName (p : String) : String :=
  if p = "" then "."
  else
    let s : List Char := (p.data.reverse.dropWhile (· = '/')).reverse
    if s = [] then "/"
    else ⟨lastComp [] s⟩

/-- The characters strictly before the last `'/'`, if any slash occurs. -/
def beforeLastSlash : List Char → Option (List Char)
  | [] => none
  | c :: rest =>
    match beforeLastSlash rest with
    | some l => some (c :: l)
    | none => if c = '/' then some [] else none

/-- `filepath.Dir` on clean paths:  `"/a/b" ↦ "/a"`, `"/a" ↦ "/"`,
`"a" ↦ "."`. -/
def dirName (p : String) : String :=
  match beforeLastSlash p.data with
  | none => "."
  | some [] => "/"
  | some l => ⟨l⟩

/-- `filepath.Join home rest` for a clean `home` and a `rest` that is either
empty, absolute, or relative without redundant slashes. -/
def joinPath (base rest : String) : String :=
  if rest = "" then base
  else if strStarts rest "/" then base ++ rest
  else base ++ "/" ++ rest

/-- `fs.ExpandPath` (src/unnamed/part_001): expand a leading `~` to the home
directory.  The embedding passes the home directory explicitly, so the
`os.UserHomeDir` failure branch does not arise. -/
def expandPath (home path : String) : String :=
  if strStarts path "~" then joinPath home (path.drop 1) else path

/-! ## Scanner (`Scanner.ScanDir`)

A source tree is given by its (already `filepath.Abs`-resolved) path, the
result of `os.Stat` on it (`present`, `isDir`), and the relative paths of the
regular files found by `filepath.Walk` under its `home/` and `root/` subtrees,
in walk (lexical) order.  A missing `home/` or `root/` subtree is an empty
list. -/

structure SourceTree where
  path : String
  present : Bool
  isDir : Bool
  homeFiles : List String
  rootFiles : List String
deriving DecidableEq, Repr

/-- The candidates produced for one tree: first the `home` scan (destination
base `$HOME`), then the `root` scan (destination base `/`), as in
`Generator.Generate`. -/
def scanEntries (home : String) (t : SourceTree) : List FileEntry :=
  (t.homeFiles.map fun rel =>
    { source := t.path ++ "/home/" ++ rel
      target := home ++ "/" ++ rel
      sourcePath := t.path
      reason := "new" })
  ++ (t.rootFiles.map fun rel =>
    { source := t.path ++ "/root/" ++ rel
      target := "/" ++ rel
      sourcePath := t.path
      reason := "new" })

/-- All candidates of all trees, in the given (precedence) order. -/
def allEntries (home : String) (trees : List SourceTree) : List FileEntry :=
  trees.foldl (fun acc t => acc ++ scanEntries home t) []

/-! ## Override merge (`Generator.Generate`, the `targetMap` loop)

The Go code keys a map by `entry.Target`.  The map *content* is modelled as an
association list in first-insertion order; `range` iteration order (used when
converting the map back to a slice) is any permutation of it. -/

/-- The override assignment performed when a target is seen again:
the existing entry keeps its target but takes the later candidate's
source/sourcePath and the reason `"override from <basename of its
sourcePath>"`. -/
def overrideEntry (old e : FileEntry) : FileEntry :=
  { old with
      reason := "override from " ++ baseName e.sourcePath
      source := e.source
      sourcePath := e.sourcePath }

/-- One step of the merge loop. -/
def insertEntry (acc : List FileEntry) (e : FileEntry) : List FileEntry :=
  if acc.any (fun x => x.target == e.target) then
    acc.map (fun x => if x.target == e.target then overrideEntry x e else x)
  else
    acc ++ [e]

/-- The merged map content, in first-seen key order. -/
def mergeEntries (es : List FileEntry) : List FileEntry :=
  es.foldl insertEntry []

/-! ## Path-mapping remap (`Generator.applyPathMappings`) -/

/-- The `relPath` computation: the target's path relative to `$HOME` if under
it, else relative to `/` if absolute, else the empty string. -/
def relFromHome (home target : String) : String :=
  if home ≠ "" ∧ strStarts target home then
    trimStart (trimStart target home) "/"
  else if strStarts target "/" then target.drop 1
  else ""

/-- The inner two loops of `applyPathMappings` for one config and one entry.
Go's `for i, entry := range result` binds `entry` to a *copy*: every mapping
of the config tests and rewrites against the entry's value from before this
config's pass (`e` here), while the accumulated rewrite lives in `result[i]`
(`cur` here).  The last matching mapping of the config therefore wins, and
exactly one `"(remapped by …)"` suffix is appended per matching config. -/
def applyConfigEntry (home cfgBase : String) (mappings : List PathMapping)
    (e : FileEntry) : FileEntry :=
  mappings.foldl
    (fun cur m =>
      let rel := relFromHome home e.target
      if strStarts rel m.src then
        { cur with
            target := expandPath home (m.tgt ++ rel.drop m.src.length)
            reason := e.reason ++ " (remapped by " ++ cfgBase ++ ")" }
      else cur)
    e

/-- `applyPathMappings`: configs are visited in Go-map iteration order (the
list order here); a config with no path mappings is skipped. -/
def applyPathMappings (home : String) (configs : List (String × Config))
    (entries : List FileEntry) : List FileEntry :=
  configs.foldl
    (fun result p =>
      if p.2.pathMappings.isEmpty then result
      else result.map (applyConfigEntry home (baseName p.1) p.2.pathMappings))
    entries

/-! ## Plan assembly (`Generator.Generate`) -/

/-- Validation pass: each source path must exist and be a directory;
generation fails fast on the first offender. -/
def validateSources : List SourceTree → Option String
  | [] => none
  | t :: ts =>
    if ¬ t.present then some ("source path does not exist: " ++ t.path)
    else if ¬ t.isDir then some ("source path is not a directory: " ++ t.path)
    else validateSources ts

/-- Build a `types.Link` from a final entry. -/
def toLink (e : FileEntry) : Link :=
  { source := e.source, target := e.target, action := "link", reason := e.reason }

/-- The plan built by `Generator.Generate` after validation succeeded:
remap the merged entries, build the links, and count `new`/`override` by the
reason's text. -/
def buildPlan (home hostname : String) (trees : List SourceTree)
    (mergedOrder : List FileEntry) (configs : List (String × Config)) : Plan :=
  let entries := applyPathMappings home configs mergedOrder
  let links := entries.map toLink
  let ov := entries.countP (fun e => strStarts e.reason "override")
  let nw := entries.countP (fun e => !strStarts e.reason "override")
  { version := "1.0.0"
    hostname := hostname
    sources := trees.map (·.path)
    links := links
    stats := { total := links.length, «new» := nw, override := ov, skip := 0 } }

/-- `Generator.Generate`, parameterised over the order `mergedOrder` in which
Go's `range` over `targetMap` yields the merged entries (any permutation of
`mergeEntries (allEntries home trees)`), and over the loaded configs in their
iteration order.  `hostname` is the `os.Hostname` result (or `"unknown"`). -/
def generateWith (home hostname : String) (trees : List SourceTree)
    (mergedOrder : List FileEntry) (configs : List (String × Config)) :
    Except String Plan :=
  match validateSources trees with
  | some e => .error e
  | none => .ok (buildPlan home hostname trees mergedOrder configs)

/-- `Generator.Generate` with the canonical first-seen merge order (the order
the Go code would emit only if map iteration preserved insertion order). -/
def generate (home hostname : String) (trees : List SourceTree)
    (configs : List (String × Config)) : Except String Plan :=
  generateWith home hostname trees (mergeEntries (allEntries home trees)) configs

/-- The possible slices Go's `range targetMap` can produce. -/
def IsMergeOrder (home : String) (trees : List SourceTree)
    (order : List FileEntry) : Prop :=
  order.Perm (mergeEntries (allEntries home trees))

/-! ## Filesystem model

A world is a finite association list from absolute path to node, together
with a permission model: `denied` lists the paths at which a direct mutating
syscall gets a permission error, and `sudoOk` says whether the `sudo` helper
fallback succeeds.  Symlink nodes store their raw link value (the program
always writes absolute values and compares them as raw strings). -/

inductive Node
  | file (content : String)
  | dir
  | symlink (value : String)
deriving DecidableEq, Repr

structure World where
  fs : List (String × Node)
  denied : List String
  sudoOk : Bool
deriving DecidableEq, Repr

/-- `os.Lstat`: look the path itself up, never following a final symlink. -/
def getNode (w : World) (p : String) : Option Node :=
  (w.fs.find? (fun kv => kv.1 == p)).map (·.2)

/-- Insert or replace a binding, keeping the position of an existing key. -/
def setNode (w : World) (p : String) (n : Node) : World :=
  if (w.fs.any (fun kv => kv.1 == p)) then
    { w with fs := w.fs.map (fun kv => if kv.1 == p then (p, n) else kv) }
  else
    { w with fs := w.fs ++ [(p, n)] }

/-- Remove a binding. -/
def delNode (w : World) (p : String) : World :=
  { w with fs := w.fs.filter (fun kv => ¬ kv.1 == p) }

/-- Result of `os.Stat` (which follows symlink chains). -/
inductive StatR
  | found (n : Node)
  | notExist
  | errOther
deriving DecidableEq, Repr

/-- Symlink-chain resolution with fuel (the kernel's `ELOOP` bound); running
out of fuel models an `ELOOP`-style error, which `os.IsNotExist` rejects. -/
def statResolve (w : World) : Nat → String → StatR
  | 0, _ => .errOther
  | fuel + 1, p =>
    match getNode w p with
    | none => .notExist
    | some (.symlink v) => statResolve w fuel v
    | some n => .found n

/-- `os.Stat` with the Linux symlink-following bound. -/
def statPath (w : World) (p : String) : StatR :=
  statResolve w 40 p

/-! ## Symlink primitives (src/unnamed/part_001, package `fs`) -/

/-- `fs.IsSymlink`: `os.Lstat`, missing path counts as not-a-symlink.  (In
this sequential model `Lstat` has no failure mode besides not-exist, so the
error return of the Go function is always `nil`.) -/
def IsSymlink (w : World) (p : String) : Bool :=
  match getNode w p with
  | some (.symlink _) => true
  | _ => false

/-- `fs.ReadSymlink` / `os.Readlink`: the raw stored link value; errors on a
non-symlink. -/
def ReadSymlink (w : World) (p : String) : Option String :=
  match getNode w p with
  | some (.symlink v) => some v
  | _ => none

/-- `fs.IsCorrectSymlink`: target is a symlink whose raw stored value is
string-equal to `source`; any error yields `false`. -/
def IsCorrectSymlink (w : World) (target source : String) : Bool :=
  if IsSymlink w target then
    match ReadSymlink w target with
    | some v => v == source
    | none => false
  else false

/-- `fs.FileExists`: `os.Stat` (following symlinks) succeeds and the result is
not a directory. -/
def FileExists (w : World) (p : String) : Bool :=
  match statPath w p with
  | .found .dir => false
  | .found _ => true
  | _ => false

/-- `fs.copyFile`: read the source (following symlinks) and write the
destination.  The write fails on a denied destination; reading a directory or
a missing file fails. -/
def copyFile (w : World) (src dst : String) : Option World :=
  match statPath w src with
  | .found (.file c) =>
    if w.denied.contains dst then none else some (setNode w dst (.file c))
  | _ => none

/-- Whether a directory has entries (a non-empty directory cannot be
`os.Remove`d, and that failure is not a permission error). -/
def hasChild (w : World) (p : String) : Bool :=
  w.fs.any (fun kv => strStarts kv.1 (p ++ "/"))

/-- `os.Remove` followed by the `sudo rm -f` fallback on a permission error
(`SymlinkManager.CreateSymlink`).  `none` is a fatal failure for the link. -/
def removeOp (w : World) (p : String) : Option World :=
  match getNode w p with
  | some .dir =>
    if hasChild w p then none      -- ENOTEMPTY: fatal, not retried with sudo
    else if w.denied.contains p then
      if w.sudoOk then some (delNode w p) else none
    else some (delNode w p)
  | _ =>
    if w.denied.contains p then
      if w.sudoOk then some (delNode w p) else none
    else some (delNode w p)

/-- The chain `p, dirName p, …` up to `/` or `.`, fuelled by the length of
`p` (each `dirName` strictly shortens a clean path). -/
def ancestorChain : Nat → String → List String
  | 0, _ => []
  | fuel + 1, p =>
    p :: (if p = "/" ∨ p = "." then [] else ancestorChain fuel (dirName p))

/-- `os.MkdirAll` followed by the `sudo mkdir -p` fallback on a permission
error: creates every missing ancestor as a directory.  A non-directory node
anywhere on the chain is fatal (`ENOTDIR`, not a permission error); a denied
missing component needs `sudoOk`. -/
def mkdirAllOp (w : World) (p : String) : Option World :=
  let chain := (ancestorChain p.length p).reverse
  if chain.any (fun q => match getNode w q with
      | some (.file _) => true
      | some (.symlink _) => true
      | _ => false) then none
  else
    let missing := chain.filter (fun q => (getNode w q).isNone)
    if missing.any (fun q => w.denied.contains q) ∧ ¬ w.sudoOk then none
    else some (missing.foldl (fun acc q => setNode acc q .dir) w)

/-- `os.Symlink` followed by the `sudo ln -sf` fallback on a permission
error.  An existing node at the target is `EEXIST` (fatal, not a permission
error); the state machine removes the target first, so this branch is only
reachable when the removal was skipped. -/
def symlinkOp (w : World) (target source : String) : Option World :=
  if (getNode w target).isSome then none
  else if w.denied.contains target then
    if w.sudoOk then some (setNode w target (.symlink source)) else none
  else some (setNode w target (.symlink source))

/-! ## The symlink state machine (`SymlinkManager.CreateSymlink`)

`ApplyOptions` mirrors `types.ApplyOptions`; `now` is the formatted
`time.Now()` used in the backup file name.  Each pipeline step returns the
(possibly mutated) world and `some msg` on a fatal error, mirroring the early
`return fmt.Errorf(...)` of the Go code. -/

structure ApplyOptions where
  dryRun : Bool
  backup : Bool
  verbose : Bool
deriving DecidableEq, Repr

/-- Backup step: only when `opts.backup` is set, the target `os.Stat`s to a
non-directory, and the target is not itself a symlink.  In dry-run the copy is
only printed. -/
def backupStep (w : World) (target : String) (opts : ApplyOptions)
    (now : String) : World × Option String :=
  if opts.backup && FileExists w target && !(IsSymlink w target) then
    if !opts.dryRun then
      match copyFile w target (target ++ ".backup." ++ now) with
      | some w1 => (w1, none)
      | none => (w, some ("failed to backup " ++ target))
    else (w, none)
  else (w, none)

/-- Removal step: runs when `os.Lstat target` succeeds (so also for broken
symlinks); dry-run only prints. -/
def removeStep (w : World) (target : String) (opts : ApplyOptions) :
    World × Option String :=
  if (getNode w target).isSome then
    if !opts.dryRun then
      match removeOp w target with
      | some w1 => (w1, none)
      | none => (w, some ("failed to remove " ++ target))
    else (w, none)
  else (w, none)

/-- Parent-directory step: runs when `os.Stat (dirName target)` reports
not-exist; dry-run only prints. -/
def mkdirStep (w : World) (target : String) (opts : ApplyOptions) :
    World × Option String :=
  if statPath w (dirName target) = .notExist then
    if !opts.dryRun then
      match mkdirAllOp w (dirName target) with
      | some w1 => (w1, none)
      | none => (w, some ("failed to create directory " ++ dirName target))
    else (w, none)
  else (w, none)

/-- Final symlink-creation step; dry-run only prints. -/
def linkStep (w : World) (target source : String) (opts : ApplyOptions) :
    World × Option String :=
  if !opts.dryRun then
    match symlinkOp w target source with
    | some w1 => (w1, none)
    | none => (w, some ("failed to create symlink " ++ target))
  else (w, none)

/-- The observable outcome of one `CreateSymlink` call.  `alreadyLinked` and
`created` both correspond to a `nil` error return in Go; they are
distinguished by the `[SKIP] Already linked` log of the early return versus
the normal pipeline logs. -/
inductive CsOutcome
  | alreadyLinked
  | created
  | failed (msg : String)
deriving DecidableEq, Repr

/-- `SymlinkManager.CreateSymlink`: early return when the target is already
the correct symlink, then backup / remove / mkdir / symlink in order, each
aborting the link on a fatal error. -/
def CreateSymlink (w : World) (target source : String) (opts : ApplyOptions)
    (now : String) : World × CsOutcome :=
  if IsCorrectSymlink w target source then (w, .alreadyLinked)
  else
    match backupStep w target opts now with
    | (w1, some m) => (w1, .failed m)
    | (w1, none) =>
      match removeStep w1 target opts with
      | (w2, some m) => (w2, .failed m)
      | (w2, none) =>
        match mkdirStep w2 target opts with
        | (w3, some m) => (w3, .failed m)
        | (w3, none) =>
          match linkStep w3 target source opts with
          | (w4, some m) => (w4, .failed m)
          | (w4, none) => (w4, .created)

/-! ## The batch applier (src/unnamed/part_000, `Applier.Apply`) -/

/-- The per-link result recorded by the batch loop: a missing source is
skipped with a warning; a `CreateSymlink` error is printed and counted as
skipped; otherwise the link counts as a success. -/
inductive LinkResult
  | skippedSource
  | applied (o : CsOutcome)
  | failed (msg : String)
deriving DecidableEq, Repr

/-- One iteration of the `Apply` loop. -/
def applyLink (w : World) (l : Link) (opts : ApplyOptions) (now : String) :
    World × LinkResult :=
  if statPath w l.source = .notExist then (w, .skippedSource)
  else
    match CreateSymlink w l.target l.source opts now with
    | (w1, .failed m) => (w1, .failed m)
    | (w1, o) => (w1, .applied o)

/-- The summary counters printed at the end of `Apply`. -/
structure ApplySummary where
  total : Nat
  success : Nat
  skipped : Nat
deriving DecidableEq, Repr

/-- Equality of `Apply` results is decidable (used to evaluate the applier
on concrete worlds). -/
instance instDecEqExceptApply :
    DecidableEq (Except String (World × ApplySummary × List LinkResult)) :=
  fun a b =>
    match a, b with
    | .ok x, .ok y =>
      if h : x = y then isTrue (by rw [h]) else isFalse (by
        intro hc
        exact h (Except.ok.inj hc))
    | .error x, .error y =>
      if h : x = y then isTrue (by rw [h]) else isFalse (by
        intro hc
        exact h (Except.error.inj hc))
    | .ok _, .error _ => isFalse (by intro hc; cases hc)
    | .error _, .ok _ => isFalse (by intro hc; cases hc)

def summarize (rs : List LinkResult) : ApplySummary :=
  { total := rs.length
    success := rs.countP (fun r => match r with | .applied _ => true | _ => false)
    skipped := rs.countP (fun r => match r with | .applied _ => false | _ => true) }

/-- `Applier.Apply`: processes every link in order, accumulating per-link
results, and unconditionally ends in `return nil` — hence the `Except` value
is `.ok` by construction, exactly as the Go function's `error` return is
always `nil`. -/
def Apply (w : World) (p : Plan) (opts : ApplyOptions) (now : String) :
    Except String (World × ApplySummary × List LinkResult) :=
  let out := p.links.foldl
    (fun (acc : World × List LinkResult) l =>
      let (w1, r) := applyLink acc.1 l opts now
      (w1, acc.2 ++ [r]))
    (w, [])
  .ok (out.1, summarize out.2, out.2)

/-! ## The checker (src/unnamed/part_003) -/

inductive LinkStatus
  | ok
  | missing
  | wrongLink
  | notSymlink
  | sourceMissing
deriving DecidableEq, Repr

structure CheckResult where
  link : Link
  status : LinkStatus
  detail : String
deriving DecidableEq, Repr

/-- `Checker.checkLink`.  In this sequential model `os.Lstat` and
`os.Readlink` have no failure mode beyond those shown, so the Go branches
"stat of target fails for another reason → MISSING" and "readlink fails →
WRONG_LINK" are vacuous here. -/
def checkLink (w : World) (l : Link) : CheckResult :=
  if statPath w l.source = .notExist then
    { link := l, status := .sourceMissing
      detail := "source file does not exist: " ++ l.source }
  else
    match getNode w l.target with
    | none => { link := l, status := .missing, detail := "target does not exist" }
    | some (.symlink v) =>
      if v = l.source then
        { link := l, status := .ok, detail := "correctly linked" }
      else
        { link := l, status := .wrongLink, detail := "points to: " ++ v }
    | some _ =>
      { link := l, status := .notSymlink
        detail := "target exists but is not a symlink" }

/-- `types.CheckReport` (the `ByStatus` map is derivable from `results` and
not needed by any claim). -/
structure CheckReport where
  total : Nat
  results : List CheckResult
  allOK : Bool
deriving DecidableEq, Repr

/-- One iteration of the `CheckPlan` loop: record the result and flip
`allOK` on a non-OK status. -/
def checkStep (w : World) (rep : CheckReport) (l : Link) : CheckReport :=
  let r := checkLink w l
  { rep with
      results := rep.results ++ [r]
      allOK := rep.allOK && (r.status == .ok) }

/-- `Checker.CheckPlan`: fold over the links, flipping `allOK` to false on
any non-OK result. -/
def CheckPlan (w : World) (p : Plan) : CheckReport :=
  p.links.foldl (checkStep w)
    { total := p.links.length, results := [], allOK := true }

/-! ## Lemmas about the override merge -/

/-- Looking a target up in the merged association list. -/
def lookupT (l : List FileEntry) (t : String) : Option FileEntry :=
  l.find? (fun e => e.target == t)

/-- The per-key effect of one merge-loop iteration: the first candidate is
recorded verbatim, later ones override. -/
def chainStep (cur : Option FileEntry) (e : FileEntry) : Option FileEntry :=
  match cur with
  | none => some e
  | some c => some (overrideEntry c e)

theorem overrideEntry_target (old e : FileEntry) :
    (overrideEntry old e).target = old.target := rfl

theorem insertEntry_targets (acc : List FileEntry) (e : FileEntry) :
    (insertEntry acc e).map (·.target) =
      if acc.any (fun x => x.target == e.target) then acc.map (·.target)
      else acc.map (·.target) ++ [e.target] := by
  unfold insertEntry
  split
  · rw [List.map_map]
    apply List.map_congr_left
    intro x _
    simp only [Function.comp]
    split <;> rfl
  · rw [List.map_append]
    rfl

theorem insertEntry_targets_nodup (acc : List FileEntry) (e : FileEntry)
    (h : (acc.map (·.target)).Nodup) :
    ((insertEntry acc e).map (·.target)).Nodup := by
  rw [insertEntry_targets]
  split
  · exact h
  · rename_i hany
    have hnotmem : e.target ∉ acc.map (·.target) := by
      intro hmem
      apply hany
      obtain ⟨x, hx, hxe⟩ := List.mem_map.mp hmem
      exact List.any_eq_true.mpr ⟨x, hx, beq_iff_eq.mpr hxe⟩
    have : (acc.map (·.target) ++ [e.target]).Perm (e.target :: acc.map (·.target)) :=
      List.perm_append_singleton _ _
    rw [this.nodup_iff]
    exact List.nodup_cons.mpr ⟨hnotmem, h⟩

theorem foldl_insert_targets_nodup (es : List FileEntry) :
    ∀ acc : List FileEntry, (acc.map (·.target)).Nodup →
      ((es.foldl insertEntry acc).map (·.target)).Nodup := by
  induction es with
  | nil => intro acc h; simpa using h
  | cons e rest ih =>
    intro acc h
    rw [List.foldl_cons]
    exact ih _ (insertEntry_targets_nodup acc e h)

/-- The merged map never holds two entries with the same target. -/
theorem mergeEntries_targets_nodup (es : List FileEntry) :
    ((mergeEntries es).map (·.target)).Nodup :=
  foldl_insert_targets_nodup es [] (by simp)

theorem lookupT_insert (acc : List FileEntry) (e : FileEntry) (t : String) :
    lookupT (insertEntry acc e) t =
      if e.target = t then chainStep (lookupT acc t) e else lookupT acc t := by
  unfold insertEntry lookupT
  split
  · rename_i hany
    rw [List.find?_map]
    have hpre :
        (fun x : FileEntry => x.target == t) ∘
          (fun x => if x.target == e.target then overrideEntry x e else x) =
        (fun x : FileEntry => x.target == t) := by
      funext x
      simp only [Function.comp]
      split <;> rfl
    rw [hpre]
    by_cases het : e.target = t
    · rw [if_pos het]
      cases hfind : List.find? (fun e => e.target == t) acc with
      | none =>
        exfalso
        obtain ⟨x, hx, hxe⟩ := List.any_eq_true.mp hany
        have hnone := List.find?_eq_none.mp hfind x hx
        rw [het] at hxe
        exact hnone hxe
      | some c =>
        have h' := List.find?_some hfind
        have hct : c.target = t := beq_iff_eq.mp h'
        simp only [Option.map_some', chainStep]
        rw [if_pos (show (c.target == e.target) = true by simp [hct, het])]
    · rw [if_neg het]
      cases hfind : List.find? (fun e => e.target == t) acc with
      | none => rfl
      | some c =>
        have h' := List.find?_some hfind
        have hct : c.target = t := beq_iff_eq.mp h'
        simp only [Option.map_some']
        rw [if_neg (show ¬ (c.target == e.target) = true by simp [hct, Ne.symm het])]
  · rename_i hany
    rw [List.find?_append]
    by_cases het : e.target = t
    · rw [if_pos het]
      have hfind : List.find? (fun e => e.target == t) acc = none := by
        apply List.find?_eq_none.mpr
        intro x hx hxt
        apply hany
        apply List.any_eq_true.mpr
        refine ⟨x, hx, ?_⟩
        rw [het]
        exact hxt
      have hsingle : List.find? (fun x : FileEntry => x.target == t) [e] = some e := by
        simp [List.find?, beq_iff_eq.mpr het]
      rw [hfind, hsingle]
      rfl
    · rw [if_neg het]
      have hsingle : List.find? (fun x : FileEntry => x.target == t) [e] = none := by
        cases hbe : (e.target == t) with
        | true => exact absurd (beq_iff_eq.mp hbe) het
        | false => simp [List.find?, hbe]
      rw [hsingle, Option.or_none]

theorem lookupT_foldl (es : List FileEntry) :
    ∀ (acc : List FileEntry) (t : String),
      lookupT (es.foldl insertEntry acc) t =
        (es.filter (fun e => e.target == t)).foldl chainStep (lookupT acc t) := by
  induction es with
  | nil => intro acc t; rfl
  | cons e rest ih =>
    intro acc t
    rw [List.foldl_cons, ih]
    by_cases het : e.target = t
    · have hfc : List.filter (fun x : FileEntry => x.target == t) (e :: rest) =
          e :: List.filter (fun x : FileEntry => x.target == t) rest := by
        simp only [List.filter_cons]
        rw [if_pos (beq_iff_eq.mpr het)]
      rw [hfc, List.foldl_cons, lookupT_insert, if_pos het]
    · have hfc : List.filter (fun x : FileEntry => x.target == t) (e :: rest) =
          List.filter (fun x : FileEntry => x.target == t) rest := by
        simp only [List.filter_cons]
        rw [if_neg (show ¬ (e.target == t) = true by simpa using het)]
      rw [hfc, lookupT_insert, if_neg het]

/-- The merged entry for a target is the override-fold of all candidates
with that target, in candidate order. -/
theorem mergeEntries_lookupT (es : List FileEntry) (t : String) :
    lookupT (mergeEntries es) t =
      (es.filter (fun e => e.target == t)).foldl chainStep none :=
  lookupT_foldl es [] t

theorem foldl_chainStep_some (l : List FileEntry) :
    ∀ c : FileEntry, l.foldl chainStep (some c) = some (l.foldl overrideEntry c) := by
  induction l with
  | nil => intro c; rfl
  | cons e rest ih =>
    intro c
    rw [List.foldl_cons, List.foldl_cons]
    exact ih (overrideEntry c e)

theorem foldl_overrideEntry_last (l : List FileEntry) :
    ∀ (c e' : FileEntry), l.getLast? = some e' →
      l.foldl overrideEntry c =
        { source := e'.source, target := c.target, sourcePath := e'.sourcePath,
          reason := "override from " ++ baseName e'.sourcePath } := by
  induction l with
  | nil => intro c e' h; cases h
  | cons e rest ih =>
    intro c e' h
    cases rest with
    | nil =>
      have he : e' = e := by simpa [List.getLast?] using h.symm
      subst he
      rfl
    | cons f rs =>
      rw [List.foldl_cons]
      apply ih
      simpa [List.getLast?_cons_cons] using h

/-- The override chain of a nonempty candidate list with at least two
elements, all sharing the target `t`: the result takes source and provenance
from the last candidate and is marked as an override. -/
theorem chain_final (hits : List FileEntry) (t : String) (e' : FileEntry)
    (htg : ∀ e ∈ hits, e.target = t)
    (hlast : hits.getLast? = some e') (h2 : 2 ≤ hits.length) :
    hits.foldl chainStep none =
      some { source := e'.source, target := t, sourcePath := e'.sourcePath,
             reason := "override from " ++ baseName e'.sourcePath } := by
  cases hits with
  | nil => simp at h2
  | cons e0 tl =>
    rw [List.foldl_cons]
    show tl.foldl chainStep (some e0) = _
    rw [foldl_chainStep_some]
    cases tl with
    | nil => simp at h2
    | cons f rs =>
      have hlast' : (f :: rs).getLast? = some e' := by
        simpa [List.getLast?_cons_cons] using hlast
      rw [foldl_overrideEntry_last (f :: rs) e0 e' hlast']
      have h0 : e0.target = t := htg e0 (by simp)
      rw [h0]

/-! ## String-append cancellation (used to identify targets) -/

theorem strAppend_cancel (s a b : String) (h : s ++ a = s ++ b) : a = b := by
  have hd : s.data ++ a.data = s.data ++ b.data := by
    have := congrArg String.data h
    simpa [String.data_append] using this
  have hab : a.data = b.data := List.append_cancel_left hd
  cases a
  cases b
  simp only at hab
  exact congrArg String.mk hab

theorem beq_append_iff (base q p : String) :
    (base ++ q == base ++ p) = (q == p) := by
  by_cases h : q = p
  · rw [h]
    simp
  · have h2 : base ++ q ≠ base ++ p := fun hc => h (strAppend_cancel base q p hc)
    rw [beq_eq_false_iff_ne.mpr h2, beq_eq_false_iff_ne.mpr h]

/-! ## The candidates contributing a given target -/

/-- Shape of a home-subtree candidate. -/
def homeCand (home : String) (X : SourceTree) (rel : String) : FileEntry :=
  { source := X.path ++ "/home/" ++ rel, target := home ++ "/" ++ rel,
    sourcePath := X.path, reason := "new" }

/-- Shape of a root-subtree candidate. -/
def rootCand (X : SourceTree) (rel : String) : FileEntry :=
  { source := X.path ++ "/root/" ++ rel, target := "/" ++ rel,
    sourcePath := X.path, reason := "new" }

theorem scanEntries_eq (home : String) (X : SourceTree) :
    scanEntries home X =
      X.homeFiles.map (homeCand home X) ++ X.rootFiles.map (rootCand X) := rfl

/-- Filtering one tree's scan for the target of home-relative path `p`, when
no root-subtree file of the tree collides with that target: exactly the
occurrences of `p` among the tree's home files remain. -/
theorem filter_scan (home : String) (X : SourceTree) (p : String)
    (hroot : ∀ r ∈ X.rootFiles, ¬ ("/" ++ r = home ++ "/" ++ p)) :
    (scanEntries home X).filter (fun e => e.target == home ++ "/" ++ p) =
      (X.homeFiles.filter (fun q => q == p)).map (homeCand home X) := by
  rw [scanEntries_eq, List.filter_append]
  have hhome :
      (X.homeFiles.map (homeCand home X)).filter
          (fun e => e.target == home ++ "/" ++ p) =
        (X.homeFiles.filter (fun q => q == p)).map (homeCand home X) := by
    rw [List.filter_map]
    congr 1
    apply List.filter_congr
    intro q _
    show (home ++ "/" ++ q == home ++ "/" ++ p) = (q == p)
    exact beq_append_iff (home ++ "/") q p
  have hrootnil :
      (X.rootFiles.map (rootCand X)).filter
          (fun e => e.target == home ++ "/" ++ p) = [] := by
    rw [List.filter_map]
    have : X.rootFiles.filter
        ((fun e : FileEntry => e.target == home ++ "/" ++ p) ∘ rootCand X) = [] := by
      apply List.filter_eq_nil_iff.mpr
      intro r hr
      show ¬ ("/" ++ r == home ++ "/" ++ p) = true
      simpa using hroot r hr
    rw [this]
    rfl
  rw [hhome, hrootnil, List.append_nil]

theorem filter_beq_getLast (l : List String) (p : String) (hp : p ∈ l) :
    (l.filter (fun q => q == p)).getLast? = some p ∧
      0 < (l.filter (fun q => q == p)).length := by
  have hpmem : p ∈ l.filter (fun q => q == p) :=
    List.mem_filter.mpr ⟨hp, by simp⟩
  have hne : l.filter (fun q => q == p) ≠ [] := List.ne_nil_of_mem hpmem
  refine ⟨?_, List.length_pos.mpr hne⟩
  cases hlast : (l.filter (fun q => q == p)).getLast? with
  | none => exact absurd (List.getLast?_eq_none_iff.mp hlast) hne
  | some q =>
    have hq : q ∈ l.filter (fun q => q == p) := List.mem_of_mem_getLast? hlast
    have : q = p := by simpa using (List.mem_filter.mp hq).2
    rw [this]

/-- The merged entry for the shared home-relative path `p` of two layered
trees `[A, B]`: it is B's file, marked as an override from B's basename. -/
theorem merged_pair_entry (home : String) (A B : SourceTree) (p : String)
    (hpA : p ∈ A.homeFiles) (hpB : p ∈ B.homeFiles)
    (hroot : ∀ r, (r ∈ A.rootFiles ∨ r ∈ B.rootFiles) →
      ¬ ("/" ++ r = home ++ "/" ++ p)) :
    lookupT (mergeEntries (allEntries home [A, B])) (home ++ "/" ++ p) =
      some { source := B.path ++ "/home/" ++ p, target := home ++ "/" ++ p,
             sourcePath := B.path,
             reason := "override from " ++ baseName B.path } := by
  rw [mergeEntries_lookupT]
  have hAB : allEntries home [A, B] = scanEntries home A ++ scanEntries home B := rfl
  rw [hAB, List.filter_append,
    filter_scan home A p (fun r hr => hroot r (Or.inl hr)),
    filter_scan home B p (fun r hr => hroot r (Or.inr hr))]
  obtain ⟨hlastA, hposA⟩ := filter_beq_getLast A.homeFiles p hpA
  obtain ⟨hlastB, hposB⟩ := filter_beq_getLast B.homeFiles p hpB
  have htg : ∀ e ∈ (A.homeFiles.filter (fun q => q == p)).map (homeCand home A) ++
      (B.homeFiles.filter (fun q => q == p)).map (homeCand home B),
      e.target = home ++ "/" ++ p := by
    intro e he
    rcases List.mem_append.mp he with hA | hB
    · obtain ⟨q, hq, rfl⟩ := List.mem_map.mp hA
      have : q = p := by simpa using (List.mem_filter.mp hq).2
      rw [this]
      rfl
    · obtain ⟨q, hq, rfl⟩ := List.mem_map.mp hB
      have : q = p := by simpa using (List.mem_filter.mp hq).2
      rw [this]
      rfl
  have hlast : ((A.homeFiles.filter (fun q => q == p)).map (homeCand home A) ++
      (B.homeFiles.filter (fun q => q == p)).map (homeCand home B)).getLast? =
      some (homeCand home B p) := by
    rw [List.getLast?_append, List.getLast?_map, hlastB]
    rfl
  have h2 : 2 ≤ ((A.homeFiles.filter (fun q => q == p)).map (homeCand home A) ++
      (B.homeFiles.filter (fun q => q == p)).map (homeCand home B)).length := by
    rw [List.length_append, List.length_map, List.length_map]
    omega
  exact chain_final _ (home ++ "/" ++ p) (homeCand home B p) htg hlast h2

/-- Filtering one tree's scan for the target of root-relative path `p`, when
no home-subtree file of the tree collides with that target: exactly the
occurrences of `p` among the tree's root files remain. -/
theorem filter_scan_root (home : String) (X : SourceTree) (p : String)
    (hhome : ∀ q ∈ X.homeFiles, ¬ (home ++ "/" ++ q = "/" ++ p)) :
    (scanEntries home X).filter (fun e => e.target == "/" ++ p) =
      (X.rootFiles.filter (fun q => q == p)).map (rootCand X) := by
  rw [scanEntries_eq, List.filter_append]
  have hhomenil :
      (X.homeFiles.map (homeCand home X)).filter
          (fun e => e.target == "/" ++ p) = [] := by
    rw [List.filter_map]
    have : X.homeFiles.filter
        ((fun e : FileEntry => e.target == "/" ++ p) ∘ homeCand home X) = [] := by
      apply List.filter_eq_nil_iff.mpr
      intro q hq
      show ¬ (home ++ "/" ++ q == "/" ++ p) = true
      simpa using hhome q hq
    rw [this]
    rfl
  have hroot :
      (X.rootFiles.map (rootCand X)).filter (fun e => e.target == "/" ++ p) =
        (X.rootFiles.filter (fun q => q == p)).map (rootCand X) := by
    rw [List.filter_map]
    congr 1
    apply List.filter_congr
    intro q _
    show ("/" ++ q == "/" ++ p) = (q == p)
    exact beq_append_iff "/" q p
  rw [hhomenil, hroot, List.nil_append]

/-- Root-subtree analogue of `merged_pair_entry`. -/
theorem merged_pair_entry_root (home : String) (A B : SourceTree) (p : String)
    (hpA : p ∈ A.rootFiles) (hpB : p ∈ B.rootFiles)
    (hhome : ∀ q, (q ∈ A.homeFiles ∨ q ∈ B.homeFiles) →
      ¬ (home ++ "/" ++ q = "/" ++ p)) :
    lookupT (mergeEntries (allEntries home [A, B])) ("/" ++ p) =
      some { source := B.path ++ "/root/" ++ p, target := "/" ++ p,
             sourcePath := B.path,
             reason := "override from " ++ baseName B.path } := by
  rw [mergeEntries_lookupT]
  have hAB : allEntries home [A, B] = scanEntries home A ++ scanEntries home B := rfl
  rw [hAB, List.filter_append,
    filter_scan_root home A p (fun q hq => hhome q (Or.inl hq)),
    filter_scan_root home B p (fun q hq => hhome q (Or.inr hq))]
  obtain ⟨hlastA, hposA⟩ := filter_beq_getLast A.rootFiles p hpA
  obtain ⟨hlastB, hposB⟩ := filter_beq_getLast B.rootFiles p hpB
  have htg : ∀ e ∈ (A.rootFiles.filter (fun q => q == p)).map (rootCand A) ++
      (B.rootFiles.filter (fun q => q == p)).map (rootCand B),
      e.target = "/" ++ p := by
    intro e he
    rcases List.mem_append.mp he with hA | hB
    · obtain ⟨q, hq, rfl⟩ := List.mem_map.mp hA
      have : q = p := by simpa using (List.mem_filter.mp hq).2
      rw [this]
      rfl
    · obtain ⟨q, hq, rfl⟩ := List.mem_map.mp hB
      have : q = p := by simpa using (List.mem_filter.mp hq).2
      rw [this]
      rfl
  have hlast : ((A.rootFiles.filter (fun q => q == p)).map (rootCand A) ++
      (B.rootFiles.filter (fun q => q == p)).map (rootCand B)).getLast? =
      some (rootCand B p) := by
    rw [List.getLast?_append, List.getLast?_map, hlastB]
    rfl
  have h2 : 2 ≤ ((A.rootFiles.filter (fun q => q == p)).map (rootCand A) ++
      (B.rootFiles.filter (fun q => q == p)).map (rootCand B)).length := by
    rw [List.length_append, List.length_map, List.length_map]
    omega
  exact chain_final _ ("/" ++ p) (rootCand B p) htg hlast h2

/-! ## Remap when no config declares path mappings -/

theorem applyPathMappings_no_mappings (home : String) (configs : List (String × Config))
    (hcfg : ∀ c ∈ configs, c.2.pathMappings = []) (entries : List FileEntry) :
    applyPathMappings home configs entries = entries := by
  induction configs generalizing entries with
  | nil => rfl
  | cons c cs ih =>
    unfold applyPathMappings
    rw [List.foldl_cons]
    have hc : c.2.pathMappings = [] := hcfg c (by simp)
    have hstep : (if c.2.pathMappings.isEmpty then entries
        else entries.map (applyConfigEntry home (baseName c.1) c.2.pathMappings)) =
        entries := by
      rw [hc]
      rfl
    show List.foldl _ (if c.2.pathMappings.isEmpty then entries
      else entries.map (applyConfigEntry home (baseName c.1) c.2.pathMappings)) cs = entries
    rw [hstep]
    exact ih (fun d hd => hcfg d (List.mem_cons_of_mem c hd)) entries

/-! ## Plan-level conclusions from a merged-map lookup -/

/-- Once validation passes, a target held by the merged map with entry
`efin` yields, through any merge-iteration order and any set of
mapping-free configs, exactly one link with that target, namely
`toLink efin`. -/
theorem generateWith_unique_target (home hn : String) (trees : List SourceTree)
    (t : String) (efin : FileEntry)
    (hval : validateSources trees = none)
    (hfin : lookupT (mergeEntries (allEntries home trees)) t = some efin)
    (configs : List (String × Config)) (hcfg : ∀ c ∈ configs, c.2.pathMappings = [])
    (order : List FileEntry) (ho : IsMergeOrder home trees order) :
    generateWith home hn trees order configs =
      .ok (buildPlan home hn trees order configs) ∧
    (buildPlan home hn trees order configs).links.countP
        (fun l => l.target == t) = 1 ∧
    toLink efin ∈ (buildPlan home hn trees order configs).links := by
  have hok : generateWith home hn trees order configs =
      .ok (buildPlan home hn trees order configs) := by
    unfold generateWith
    rw [hval]
  have hlinks : (buildPlan home hn trees order configs).links = order.map toLink := by
    show (applyPathMappings home configs order).map toLink = order.map toLink
    rw [applyPathMappings_no_mappings home configs hcfg order]
  have hbeq := List.find?_some hfin
  have het : efin.target = t := beq_iff_eq.mp hbeq
  have hmem : efin ∈ mergeEntries (allEntries home trees) :=
    List.mem_of_find?_eq_some hfin
  have hcount : (mergeEntries (allEntries home trees)).countP
      (fun e => e.target == t) = 1 := by
    have hnd := mergeEntries_targets_nodup (allEntries home trees)
    have hle := List.nodup_iff_count_le_one.mp hnd t
    have htmem : t ∈ (mergeEntries (allEntries home trees)).map (·.target) :=
      List.mem_map.mpr ⟨efin, hmem, het⟩
    have hpos := List.count_pos_iff.mpr htmem
    have hcnt : ((mergeEntries (allEntries home trees)).map (·.target)).count t =
        (mergeEntries (allEntries home trees)).countP
          (fun e => e.target == t) := by
      show ((mergeEntries (allEntries home trees)).map (·.target)).countP
        (· == t) = _
      rw [List.countP_map]
      rfl
    omega
  refine ⟨hok, ?_, ?_⟩
  · rw [hlinks]
    have : (order.map toLink).countP (fun l => l.target == t) =
        order.countP (fun e => e.target == t) := by
      rw [List.countP_map]
      rfl
    rw [this, ho.countP_eq]
    exact hcount
  · rw [hlinks]
    exact List.mem_map_of_mem toLink (ho.mem_iff.mpr hmem)

theorem generateWith_pair (home hn : String) (A B : SourceTree) (p : String)
    (hAp : A.present = true) (hAd : A.isDir = true)
    (hBp : B.present = true) (hBd : B.isDir = true)
    (hpA : p ∈ A.homeFiles) (hpB : p ∈ B.homeFiles)
    (hroot : ∀ r, (r ∈ A.rootFiles ∨ r ∈ B.rootFiles) →
      ¬ ("/" ++ r = home ++ "/" ++ p))
    (configs : List (String × Config)) (hcfg : ∀ c ∈ configs, c.2.pathMappings = [])
    (order : List FileEntry) (ho : IsMergeOrder home [A, B] order) :
    generateWith home hn [A, B] order configs =
      .ok (buildPlan home hn [A, B] order configs) ∧
    (buildPlan home hn [A, B] order configs).links.countP
        (fun l => l.target == home ++ "/" ++ p) = 1 ∧
    ({ source := B.path ++ "/home/" ++ p, target := home ++ "/" ++ p,
       action := "link",
       reason := "override from " ++ baseName B.path } : Link)
      ∈ (buildPlan home hn [A, B] order configs).links := by
  have hval : validateSources [A, B] = none := by
    simp [validateSources, hAp, hAd, hBp, hBd]
  exact generateWith_unique_target home hn [A, B] (home ++ "/" ++ p) _ hval
    (merged_pair_entry home A B p hpA hpB hroot) configs hcfg order ho

theorem generateWith_pair_root (home hn : String) (A B : SourceTree) (p : String)
    (hAp : A.present = true) (hAd : A.isDir = true)
    (hBp : B.present = true) (hBd : B.isDir = true)
    (hpA : p ∈ A.rootFiles) (hpB : p ∈ B.rootFiles)
    (hhome : ∀ q, (q ∈ A.homeFiles ∨ q ∈ B.homeFiles) →
      ¬ (home ++ "/" ++ q = "/" ++ p))
    (configs : List (String × Config)) (hcfg : ∀ c ∈ configs, c.2.pathMappings = [])
    (order : List FileEntry) (ho : IsMergeOrder home [A, B] order) :
    generateWith home hn [A, B] order configs =
      .ok (buildPlan home hn [A, B] order configs) ∧
    (buildPlan home hn [A, B] order configs).links.countP
        (fun l => l.target == "/" ++ p) = 1 ∧
    ({ source := B.path ++ "/root/" ++ p, target := "/" ++ p,
       action := "link",
       reason := "override from " ++ baseName B.path } : Link)
      ∈ (buildPlan home hn [A, B] order configs).links := by
  have hval : validateSources [A, B] = none := by
    simp [validateSources, hAp, hAd, hBp, hBd]
  exact generateWith_unique_target home hn [A, B] ("/" ++ p) _ hval
    (merged_pair_entry_root home A B p hpA hpB hhome) configs hcfg order ho

/-! ## Applier lemmas -/

theorem backupStep_dryRun (w : World) (target : String) (opts : ApplyOptions)
    (now : String) (h : opts.dryRun = true) :
    backupStep w target opts now = (w, none) := by
  unfold backupStep
  rw [h]
  split <;> rfl

theorem removeStep_dryRun (w : World) (target : String) (opts : ApplyOptions)
    (h : opts.dryRun = true) :
    removeStep w target opts = (w, none) := by
  unfold removeStep
  rw [h]
  split <;> rfl

theorem mkdirStep_dryRun (w : World) (target : String) (opts : ApplyOptions)
    (h : opts.dryRun = true) :
    mkdirStep w target opts = (w, none) := by
  unfold mkdirStep
  rw [h]
  split <;> rfl

theorem linkStep_dryRun (w : World) (target source : String) (opts : ApplyOptions)
    (h : opts.dryRun = true) :
    linkStep w target source opts = (w, none) := by
  unfold linkStep
  rw [h]
  rfl

/-- In dry-run mode the state machine mutates nothing and never fails. -/
theorem CreateSymlink_dryRun (w : World) (target source : String)
    (opts : ApplyOptions) (now : String) (h : opts.dryRun = true) :
    CreateSymlink w target source opts now = (w, .alreadyLinked) ∨
      CreateSymlink w target source opts now = (w, .created) := by
  unfold CreateSymlink
  by_cases hc : IsCorrectSymlink w target source = true
  · left
    rw [if_pos hc]
  · right
    rw [if_neg hc]
    simp only [backupStep_dryRun w target opts now h,
      removeStep_dryRun w target opts h, mkdirStep_dryRun w target opts h,
      linkStep_dryRun w target source opts h]

/-- The already-correct early return: no mutation, `[SKIP]` outcome. -/
theorem CreateSymlink_correct (w : World) (target source : String)
    (opts : ApplyOptions) (now : String) (h : IsCorrectSymlink w target source = true) :
    CreateSymlink w target source opts now = (w, .alreadyLinked) := by
  unfold CreateSymlink
  rw [if_pos h]

/-- In dry-run mode one loop iteration leaves the world unchanged and does
not record a failure. -/
theorem applyLink_dryRun (w : World) (l : Link) (opts : ApplyOptions)
    (now : String) (h : opts.dryRun = true) :
    applyLink w l opts now = (w, .skippedSource) ∨
      applyLink w l opts now = (w, .applied .alreadyLinked) ∨
      applyLink w l opts now = (w, .applied .created) := by
  unfold applyLink
  by_cases hs : statPath w l.source = .notExist
  · left
    rw [if_pos hs]
  · rcases CreateSymlink_dryRun w l.target l.source opts now h with hcs | hcs <;>
      rw [if_neg hs, hcs]
    · right; left; rfl
    · right; right; rfl

/-- A link that is already correct, or whose source is missing, is a
world-preserving no-op for the loop. -/
theorem applyLink_noop (w : World) (l : Link) (opts : ApplyOptions) (now : String)
    (h : IsCorrectSymlink w l.target l.source = true ∨ statPath w l.source = .notExist) :
    applyLink w l opts now = (w, .applied .alreadyLinked) ∨
      applyLink w l opts now = (w, .skippedSource) := by
  unfold applyLink
  by_cases hs : statPath w l.source = .notExist
  · right
    rw [if_pos hs]
  · left
    rcases h with hc | hc
    · rw [if_neg hs, CreateSymlink_correct w l.target l.source opts now hc]
    · exact absurd hc hs

/-- The loop of `Applier.Apply`, for reuse in lemmas. -/
def applyFold (opts : ApplyOptions) (now : String) (links : List Link)
    (start : World × List LinkResult) : World × List LinkResult :=
  links.foldl
    (fun (acc : World × List LinkResult) l =>
      let (w1, r) := applyLink acc.1 l opts now
      (w1, acc.2 ++ [r]))
    start

theorem Apply_eq_fold (w : World) (p : Plan) (opts : ApplyOptions) (now : String) :
    Apply w p opts now =
      .ok ((applyFold opts now p.links (w, [])).1,
        summarize (applyFold opts now p.links (w, [])).2,
        (applyFold opts now p.links (w, [])).2) := rfl

/-- The loop visits every link exactly once, whatever happens to each. -/
theorem applyFold_length (opts : ApplyOptions) (now : String) (links : List Link) :
    ∀ start : World × List LinkResult,
      (applyFold opts now links start).2.length = start.2.length + links.length := by
  induction links with
  | nil => intro start; simp [applyFold]
  | cons l ls ih =>
    intro start
    unfold applyFold
    rw [List.foldl_cons]
    have := ih ((applyLink start.1 l opts now).1, start.2 ++ [(applyLink start.1 l opts now).2])
    unfold applyFold at this
    simp only [List.length_append, List.length_cons, List.length_nil] at this ⊢
    omega

/-- Every loop result is counted once, either as a success or as a skip. -/
theorem summarize_total (rs : List LinkResult) :
    (summarize rs).success + (summarize rs).skipped = (summarize rs).total := by
  unfold summarize
  simp only
  induction rs with
  | nil => rfl
  | cons r rest ih =>
    rw [List.countP_cons, List.countP_cons, List.length_cons]
    cases r <;> simp <;> omega

/-- Peeling one world-preserving iteration off the loop. -/
theorem applyFold_cons_of_applyLink (opts : ApplyOptions) (now : String)
    (l : Link) (ls : List Link) (w : World) (acc : List LinkResult)
    (r : LinkResult) (hal : applyLink w l opts now = (w, r)) :
    applyFold opts now (l :: ls) (w, acc) = applyFold opts now ls (w, acc ++ [r]) := by
  unfold applyFold
  rw [List.foldl_cons]
  show List.foldl _ ((applyLink w l opts now).1, acc ++ [(applyLink w l opts now).2]) ls = _
  rw [hal]

/-- A world in which nothing needs doing is preserved by the whole loop, and
every recorded result is a no-op. -/
theorem applyFold_noop (opts : ApplyOptions) (now : String) (links : List Link)
    (w : World)
    (h : ∀ l ∈ links, IsCorrectSymlink w l.target l.source = true ∨
      statPath w l.source = .notExist) :
    ∀ acc : List LinkResult, ∃ rs : List LinkResult,
      applyFold opts now links (w, acc) = (w, acc ++ rs) ∧
      rs.all (fun r => match r with
        | .skippedSource => true
        | .applied .alreadyLinked => true
        | _ => false) = true := by
  induction links with
  | nil => intro acc; exact ⟨[], by simp [applyFold], rfl⟩
  | cons l ls ih =>
    intro acc
    have htail := fun l' hl' => h l' (List.mem_cons_of_mem l hl')
    rcases applyLink_noop w l opts now (h l (by simp)) with hal | hal
    · obtain ⟨rs, hfold, hall⟩ := ih htail (acc ++ [.applied .alreadyLinked])
      refine ⟨.applied .alreadyLinked :: rs, ?_, ?_⟩
      · rw [applyFold_cons_of_applyLink opts now l ls w acc _ hal, hfold]
        simp
      · simpa using hall
    · obtain ⟨rs, hfold, hall⟩ := ih htail (acc ++ [.skippedSource])
      refine ⟨.skippedSource :: rs, ?_, ?_⟩
      · rw [applyFold_cons_of_applyLink opts now l ls w acc _ hal, hfold]
        simp
      · simpa using hall

/-- In dry-run mode the whole loop preserves the world and records no
failure. -/
theorem applyFold_dryRun (opts : ApplyOptions) (now : String) (links : List Link)
    (h : opts.dryRun = true) (w : World) :
    ∀ acc : List LinkResult, ∃ rs : List LinkResult,
      applyFold opts now links (w, acc) = (w, acc ++ rs) ∧
      rs.all (fun r => match r with
        | .failed _ => false
        | _ => true) = true := by
  induction links with
  | nil => intro acc; exact ⟨[], by simp [applyFold], rfl⟩
  | cons l ls ih =>
    intro acc
    rcases applyLink_dryRun w l opts now h with hal | hal | hal
    · obtain ⟨rs, hfold, hall⟩ := ih (acc ++ [.skippedSource])
      refine ⟨.skippedSource :: rs, ?_, ?_⟩
      · rw [applyFold_cons_of_applyLink opts now l ls w acc _ hal, hfold]
        simp
      · simpa using hall
    · obtain ⟨rs, hfold, hall⟩ := ih (acc ++ [.applied .alreadyLinked])
      refine ⟨.applied .alreadyLinked :: rs, ?_, ?_⟩
      · rw [applyFold_cons_of_applyLink opts now l ls w acc _ hal, hfold]
        simp
      · simpa using hall
    · obtain ⟨rs, hfold, hall⟩ := ih (acc ++ [.applied .created])
      refine ⟨.applied .created :: rs, ?_, ?_⟩
      · rw [applyFold_cons_of_applyLink opts now l ls w acc _ hal, hfold]
        simp
      · simpa using hall

/-! ## Checker lemmas -/

/-- The classification cascade exactly as the specification words it: first
matching rule wins, in the fixed order SOURCE_MISSING, MISSING, NOT_SYMLINK,
WRONG_LINK, OK. -/
def checkStatusSpec (w : World) (l : Link) : LinkStatus :=
  if statPath w l.source = .notExist then .sourceMissing
  else
    match getNode w l.target with
    | none => .missing
    | some (.symlink v) => if v = l.source then .ok else .wrongLink
    | some _ => .notSymlink

theorem checkLink_status_spec (w : World) (l : Link) :
    (checkLink w l).status = checkStatusSpec w l := by
  unfold checkLink checkStatusSpec
  by_cases hs : statPath w l.source = .notExist
  · rw [if_pos hs, if_pos hs]
  · rw [if_neg hs, if_neg hs]
    cases hg : getNode w l.target with
    | none => rfl
    | some n =>
      cases n with
      | file c => rfl
      | dir => rfl
      | symlink v =>
        by_cases hv : v = l.source
        · simp [hv]
        · simp [hv]

theorem checkFold_results (w : World) (links : List Link) :
    ∀ rep : CheckReport,
      (links.foldl (checkStep w) rep).results =
        rep.results ++ links.map (checkLink w) := by
  induction links with
  | nil => intro rep; simp
  | cons l ls ih =>
    intro rep
    rw [List.foldl_cons, ih]
    show (rep.results ++ [checkLink w l]) ++ ls.map (checkLink w) = _
    simp

theorem checkFold_allOK (w : World) (links : List Link) :
    ∀ rep : CheckReport,
      (links.foldl (checkStep w) rep).allOK =
        (rep.allOK && (links.map (checkLink w)).all (fun r => r.status == .ok)) := by
  induction links with
  | nil => intro rep; simp
  | cons l ls ih =>
    intro rep
    rw [List.foldl_cons, ih]
    show ((rep.allOK && ((checkLink w l).status == .ok)) && _) = _
    simp [Bool.and_assoc]

theorem CheckPlan_results (w : World) (p : Plan) :
    (CheckPlan w p).results = p.links.map (checkLink w) := by
  unfold CheckPlan
  rw [checkFold_results]
  simp

theorem CheckPlan_allOK (w : World) (p : Plan) :
    (CheckPlan w p).allOK =
      (CheckPlan w p).results.all (fun r => r.status == .ok) := by
  rw [CheckPlan_results]
  unfold CheckPlan
  rw [checkFold_allOK]
  simp

/-! # Claim theorems -/

/-- **C1** (code bug).  The claim demands that two runs of plan generation on
fixed input produce identical `links` sequences.  The Go merge stores
candidates in a map and emits them with `range`, whose iteration order is
unspecified and varies between runs; modelling a run by the permutation of
the merged entries that `range` happens to yield, two valid merge orders of
the same fixed input produce different `links` sequences (while `stats`,
being order-independent counts, agree).  This theorem evaluates the code at
such a failing input. -/
theorem cdm_c1_links_order_not_run_deterministic :
    IsMergeOrder "/h" [⟨"/s", true, true, ["a", "b"], []⟩]
      [⟨"/s/home/a", "/h/a", "/s", "new"⟩, ⟨"/s/home/b", "/h/b", "/s", "new"⟩] ∧
    IsMergeOrder "/h" [⟨"/s", true, true, ["a", "b"], []⟩]
      [⟨"/s/home/b", "/h/b", "/s", "new"⟩, ⟨"/s/home/a", "/h/a", "/s", "new"⟩] ∧
    (generateWith "/h" "host" [⟨"/s", true, true, ["a", "b"], []⟩]
        [⟨"/s/home/a", "/h/a", "/s", "new"⟩, ⟨"/s/home/b", "/h/b", "/s", "new"⟩]
        []).toOption.map (·.links) ≠
      (generateWith "/h" "host" [⟨"/s", true, true, ["a", "b"], []⟩]
        [⟨"/s/home/b", "/h/b", "/s", "new"⟩, ⟨"/s/home/a", "/h/a", "/s", "new"⟩]
        []).toOption.map (·.links) ∧
    (generateWith "/h" "host" [⟨"/s", true, true, ["a", "b"], []⟩]
        [⟨"/s/home/a", "/h/a", "/s", "new"⟩, ⟨"/s/home/b", "/h/b", "/s", "new"⟩]
        []).toOption.map (·.stats) =
      (generateWith "/h" "host" [⟨"/s", true, true, ["a", "b"], []⟩]
        [⟨"/s/home/b", "/h/b", "/s", "new"⟩, ⟨"/s/home/a", "/h/a", "/s", "new"⟩]
        []).toOption.map (·.stats) :=
  ⟨by unfold IsMergeOrder; decide, by unfold IsMergeOrder; decide, by decide, by decide⟩

/-- **C2** (counterexample).  The claim asserts that link targets stay
pairwise distinct even after path-mapping remaps.  With a single source tree
holding `home/a/x` and `home/b/x` and a config mapping prefix `a` to `/h/b`,
the remap rewrites the first target onto the second and the generator never
re-deduplicates: the plan has two links but only one distinct target. -/
theorem cdm_c2_counterexample :
    (generate "/h" "x" [⟨"/s", true, true, ["a/x", "b/x"], []⟩]
        [("/s", ⟨"", [⟨"a", "/h/b"⟩], [], [], false⟩)]).toOption.map
      (fun pl => pl.links.map (·.target)) = some ["/h/b/x", "/h/b/x"] ∧
    ¬ (["/h/b/x", "/h/b/x"] : List String).Nodup :=
  ⟨by rfl, by decide⟩

/-- **C2** (amended).  Targets are pairwise distinct as produced by the merge
step, and in every plan generated when no loaded config declares path
mappings; a path-mapping remap can rewrite two distinct targets to the same
value and the generator does not merge again afterwards. -/
theorem cdm_c2_targets_unique_amended :
    (∀ es : List FileEntry, ((mergeEntries es).map (·.target)).Nodup) ∧
    (∀ (home hn : String) (trees : List SourceTree)
        (configs : List (String × Config)) (pl : Plan),
      (∀ c ∈ configs, c.2.pathMappings = []) →
      generate home hn trees configs = .ok pl →
      (pl.links.map (·.target)).Nodup) := by
  constructor
  · exact mergeEntries_targets_nodup
  · intro home hn trees configs pl hcfg hgen
    unfold generate generateWith at hgen
    cases hval : validateSources trees with
    | some e => rw [hval] at hgen; cases hgen
    | none =>
      rw [hval] at hgen
      have hpl : pl = buildPlan home hn trees (mergeEntries (allEntries home trees))
          configs := (Except.ok.inj hgen).symm
      subst hpl
      have hlinks : (buildPlan home hn trees (mergeEntries (allEntries home trees))
          configs).links = (mergeEntries (allEntries home trees)).map toLink := by
        show (applyPathMappings home configs
          (mergeEntries (allEntries home trees))).map toLink = _
        rw [applyPathMappings_no_mappings home configs hcfg]
      rw [hlinks, List.map_map]
      exact mergeEntries_targets_nodup _

/-- Witness for the amended C2 at a concrete generated plan. -/
theorem cdm_c2_targets_unique_amended_witness :
    (({ version := "1.0.0", hostname := "x", sources := ["/s"],
        links := [⟨"/s/home/x", "/h/x", "link", "new"⟩,
                  ⟨"/s/home/y", "/h/y", "link", "new"⟩],
        stats := ⟨2, 2, 0, 0⟩ } : Plan).links.map (·.target)).Nodup :=
  cdm_c2_targets_unique_amended.2 "/h" "x" [⟨"/s", true, true, ["x", "y"], []⟩] [] _
    (fun c hc => absurd hc (List.not_mem_nil c)) rfl

/-- **C3** (confirmed).  Two trees `A`, `B` both holding the same relative
file `p` under the same subtree kind (and no candidate of the other kind
colliding with that target, no path mappings): generating from `[A, B]`
yields exactly one link for the target, sourced from B's file with reason
`"override from <basename of B>"`; generating from `[B, A]` yields A's file
instead.  First conjunct: the `home` subtree kind; second conjunct: the
`root` subtree kind.  Both hold for every order in which Go's map `range`
may emit the merged entries. -/
theorem cdm_c3_override_precedence :
    (∀ (home hn : String) (A B : SourceTree) (p : String)
        (configs : List (String × Config)) (orderAB orderBA : List FileEntry),
      A.present = true → A.isDir = true → B.present = true → B.isDir = true →
      p ∈ A.homeFiles → p ∈ B.homeFiles →
      (∀ r, (r ∈ A.rootFiles ∨ r ∈ B.rootFiles) →
        ¬ ("/" ++ r = home ++ "/" ++ p)) →
      (∀ c ∈ configs, c.2.pathMappings = []) →
      IsMergeOrder home [A, B] orderAB →
      IsMergeOrder home [B, A] orderBA →
      ∃ pl pl2,
        generateWith home hn [A, B] orderAB configs = .ok pl ∧
        pl.links.countP (fun l => l.target == home ++ "/" ++ p) = 1 ∧
        ({ source := B.path ++ "/home/" ++ p, target := home ++ "/" ++ p,
           action := "link",
           reason := "override from " ++ baseName B.path } : Link) ∈ pl.links ∧
        generateWith home hn [B, A] orderBA configs = .ok pl2 ∧
        pl2.links.countP (fun l => l.target == home ++ "/" ++ p) = 1 ∧
        ({ source := A.path ++ "/home/" ++ p, target := home ++ "/" ++ p,
           action := "link",
           reason := "override from " ++ baseName A.path } : Link) ∈ pl2.links) ∧
    (∀ (home hn : String) (A B : SourceTree) (p : String)
        (configs : List (String × Config)) (orderAB orderBA : List FileEntry),
      A.present = true → A.isDir = true → B.present = true → B.isDir = true →
      p ∈ A.rootFiles → p ∈ B.rootFiles →
      (∀ q, (q ∈ A.homeFiles ∨ q ∈ B.homeFiles) →
        ¬ (home ++ "/" ++ q = "/" ++ p)) →
      (∀ c ∈ configs, c.2.pathMappings = []) →
      IsMergeOrder home [A, B] orderAB →
      IsMergeOrder home [B, A] orderBA →
      ∃ pl pl2,
        generateWith home hn [A, B] orderAB configs = .ok pl ∧
        pl.links.countP (fun l => l.target == "/" ++ p) = 1 ∧
        ({ source := B.path ++ "/root/" ++ p, target := "/" ++ p,
           action := "link",
           reason := "override from " ++ baseName B.path } : Link) ∈ pl.links ∧
        generateWith home hn [B, A] orderBA configs = .ok pl2 ∧
        pl2.links.countP (fun l => l.target == "/" ++ p) = 1 ∧
        ({ source := A.path ++ "/root/" ++ p, target := "/" ++ p,
           action := "link",
           reason := "override from " ++ baseName A.path } : Link) ∈ pl2.links) := by
  constructor
  · intro home hn A B p configs orderAB orderBA hAp hAd hBp hBd hpA hpB hroot
      hcfg hoAB hoBA
    obtain ⟨h1, h2, h3⟩ := generateWith_pair home hn A B p hAp hAd hBp hBd hpA hpB
      hroot configs hcfg orderAB hoAB
    obtain ⟨g1, g2, g3⟩ := generateWith_pair home hn B A p hBp hBd hAp hAd hpB hpA
      (fun r hr => hroot r (Or.symm hr)) configs hcfg orderBA hoBA
    exact ⟨_, _, h1, h2, h3, g1, g2, g3⟩
  · intro home hn A B p configs orderAB orderBA hAp hAd hBp hBd hpA hpB hhome
      hcfg hoAB hoBA
    obtain ⟨h1, h2, h3⟩ := generateWith_pair_root home hn A B p hAp hAd hBp hBd
      hpA hpB hhome configs hcfg orderAB hoAB
    obtain ⟨g1, g2, g3⟩ := generateWith_pair_root home hn B A p hBp hBd hAp hAd
      hpB hpA (fun q hq => hhome q (Or.symm hq)) configs hcfg orderBA hoBA
    exact ⟨_, _, h1, h2, h3, g1, g2, g3⟩

/-- Witness for C3 at the spec's own scenario (`share` and `host` both
holding `home/p`) and at a root-subtree analogue (both holding
`root/etc/conf`). -/
theorem cdm_c3_override_precedence_witness :
    (∃ pl pl2,
      generateWith "/h" "host"
        [⟨"/share", true, true, ["p"], []⟩, ⟨"/host", true, true, ["p"], []⟩]
        (mergeEntries (allEntries "/h"
          [⟨"/share", true, true, ["p"], []⟩, ⟨"/host", true, true, ["p"], []⟩])) [] =
        .ok pl ∧
      pl.links.countP (fun l => l.target == "/h" ++ "/" ++ "p") = 1 ∧
      ({ source := "/host" ++ "/home/" ++ "p", target := "/h" ++ "/" ++ "p",
         action := "link",
         reason := "override from " ++ baseName "/host" } : Link) ∈ pl.links ∧
      generateWith "/h" "host"
        [⟨"/host", true, true, ["p"], []⟩, ⟨"/share", true, true, ["p"], []⟩]
        (mergeEntries (allEntries "/h"
          [⟨"/host", true, true, ["p"], []⟩, ⟨"/share", true, true, ["p"], []⟩])) [] =
        .ok pl2 ∧
      pl2.links.countP (fun l => l.target == "/h" ++ "/" ++ "p") = 1 ∧
      ({ source := "/share" ++ "/home/" ++ "p", target := "/h" ++ "/" ++ "p",
         action := "link",
         reason := "override from " ++ baseName "/share" } : Link) ∈ pl2.links) ∧
    (∃ pl pl2,
      generateWith "/h" "host"
        [⟨"/share", true, true, [], ["etc/conf"]⟩, ⟨"/host", true, true, [], ["etc/conf"]⟩]
        (mergeEntries (allEntries "/h"
          [⟨"/share", true, true, [], ["etc/conf"]⟩,
           ⟨"/host", true, true, [], ["etc/conf"]⟩])) [] =
        .ok pl ∧
      pl.links.countP (fun l => l.target == "/" ++ "etc/conf") = 1 ∧
      ({ source := "/host" ++ "/root/" ++ "etc/conf", target := "/" ++ "etc/conf",
         action := "link",
         reason := "override from " ++ baseName "/host" } : Link) ∈ pl.links ∧
      generateWith "/h" "host"
        [⟨"/host", true, true, [], ["etc/conf"]⟩, ⟨"/share", true, true, [], ["etc/conf"]⟩]
        (mergeEntries (allEntries "/h"
          [⟨"/host", true, true, [], ["etc/conf"]⟩,
           ⟨"/share", true, true, [], ["etc/conf"]⟩])) [] =
        .ok pl2 ∧
      pl2.links.countP (fun l => l.target == "/" ++ "etc/conf") = 1 ∧
      ({ source := "/share" ++ "/root/" ++ "etc/conf", target := "/" ++ "etc/conf",
         action := "link",
         reason := "override from " ++ baseName "/share" } : Link) ∈ pl2.links) :=
  ⟨cdm_c3_override_precedence.1 "/h" "host"
    ⟨"/share", true, true, ["p"], []⟩ ⟨"/host", true, true, ["p"], []⟩ "p"
    [] _ _ rfl rfl rfl rfl (by decide) (by decide)
    (fun r hr => by cases hr <;> exact absurd ‹_› (List.not_mem_nil r))
    (fun c hc => absurd hc (List.not_mem_nil c))
    (List.Perm.refl _) (List.Perm.refl _),
   cdm_c3_override_precedence.2 "/h" "host"
    ⟨"/share", true, true, [], ["etc/conf"]⟩ ⟨"/host", true, true, [], ["etc/conf"]⟩
    "etc/conf" [] _ _ rfl rfl rfl rfl (by decide) (by decide)
    (fun q hq => by cases hq <;> exact absurd ‹_› (List.not_mem_nil q))
    (fun c hc => absurd hc (List.not_mem_nil c))
    (List.Perm.refl _) (List.Perm.refl _)⟩

/-- Erase the `exclude` field of a loaded config. -/
def clearExclude (p : String × Config) : String × Config :=
  (p.1, { p.2 with exclude := [] })

theorem applyPathMappings_clearExclude (home : String)
    (configs : List (String × Config)) (es : List FileEntry) :
    applyPathMappings home (configs.map clearExclude) es =
      applyPathMappings home configs es := by
  unfold applyPathMappings
  rw [List.foldl_map]
  rfl

/-- **C4** (code bug).  The claim — and the config schema, and the README —
say candidates matching an `exclude` glob are dropped before the merge; the
generator never reads the `exclude` field at all.  First conjunct: plan
generation is invariant under erasing every `exclude` list.  Second
conjunct: a tree whose config excludes the pattern `"x"` (which matches the
scanned relative path `x` exactly) still produces a link for that file. -/
theorem cdm_c4_exclude_ignored :
    (∀ (home hn : String) (trees : List SourceTree)
        (configs : List (String × Config)),
      generate home hn trees (configs.map clearExclude) =
        generate home hn trees configs) ∧
    generate "/h" "x" [⟨"/s", true, true, ["x"], []⟩]
        [("/s", ⟨"", [], ["x"], [], false⟩)] =
      .ok { version := "1.0.0", hostname := "x", sources := ["/s"],
            links := [⟨"/s/home/x", "/h/x", "link", "new"⟩],
            stats := ⟨1, 1, 0, 0⟩ } := by
  constructor
  · intro home hn trees configs
    have hb : buildPlan home hn trees (mergeEntries (allEntries home trees))
        (configs.map clearExclude) =
        buildPlan home hn trees (mergeEntries (allEntries home trees)) configs := by
      unfold buildPlan
      rw [applyPathMappings_clearExclude]
    unfold generate generateWith
    rw [hb]
  · rfl

/-- **C5** (confirmed).  With `dryRun = true`, `Apply` returns the input
world untouched — no backup, removal, directory creation, or symlink
creation — and no per-link pipeline records a failure. -/
theorem cdm_c5_dry_run_no_mutation (w : World) (p : Plan) (opts : ApplyOptions)
    (now : String) (h : opts.dryRun = true) :
    ∃ s rs, Apply w p opts now = .ok (w, s, rs) ∧
      rs.all (fun r => match r with | .failed _ => false | _ => true) = true := by
  obtain ⟨rs, hfold, hall⟩ := applyFold_dryRun opts now p.links h w []
  refine ⟨summarize rs, rs, ?_, hall⟩
  rw [Apply_eq_fold, hfold]
  rfl

/-- Witness for C5: a dry run over a plan that would otherwise back up and
replace an existing regular file. -/
theorem cdm_c5_dry_run_no_mutation_witness :
    ∃ s rs,
      Apply ⟨[("/src", .file "x"), ("/t", .file "old"), ("/", .dir)], [], true⟩
          ⟨"1.0.0", "h", [], [⟨"/src", "/t", "link", "new"⟩], ⟨1, 1, 0, 0⟩⟩
          ⟨true, true, false⟩ "T" =
        .ok (⟨[("/src", .file "x"), ("/t", .file "old"), ("/", .dir)], [], true⟩, s, rs) ∧
      rs.all (fun r => match r with | .failed _ => false | _ => true) = true :=
  cdm_c5_dry_run_no_mutation _ _ _ _ rfl

/-- **C6** (counterexample).  Two concrete refutations of the claim as
stated.  Scenario one: a plan with two links on the same target, both
sources present — after a first apply, the second run re-creates both links
(`created`, not a skip/no-op), though it does reproduce the same world.
Scenario two: `backup = true` with a removal that fails (denied and no
usable sudo) — each run copies a fresh timestamped backup before failing, so
the second run's final world differs from the first's. -/
theorem cdm_c6_counterexample :
    Apply ⟨[("/s1", .file "c1"), ("/s2", .file "c2"), ("/", .dir)], [], true⟩
        ⟨"1.0.0", "h", [], [⟨"/s1", "/t", "link", "new"⟩, ⟨"/s2", "/t", "link", "new"⟩],
          ⟨2, 2, 0, 0⟩⟩ ⟨false, false, false⟩ "T1" =
      .ok (⟨[("/s1", .file "c1"), ("/s2", .file "c2"), ("/", .dir),
              ("/t", .symlink "/s2")], [], true⟩, ⟨2, 2, 0⟩,
            [.applied .created, .applied .created]) ∧
    Apply ⟨[("/s1", .file "c1"), ("/s2", .file "c2"), ("/", .dir),
              ("/t", .symlink "/s2")], [], true⟩
        ⟨"1.0.0", "h", [], [⟨"/s1", "/t", "link", "new"⟩, ⟨"/s2", "/t", "link", "new"⟩],
          ⟨2, 2, 0, 0⟩⟩ ⟨false, false, false⟩ "T2" =
      .ok (⟨[("/s1", .file "c1"), ("/s2", .file "c2"), ("/", .dir),
              ("/t", .symlink "/s2")], [], true⟩, ⟨2, 2, 0⟩,
            [.applied .created, .applied .created]) ∧
    statPath ⟨[("/s1", .file "c1"), ("/s2", .file "c2"), ("/", .dir),
        ("/t", .symlink "/s2")], [], true⟩ "/s1" ≠ .notExist ∧
    Apply ⟨[("/f", .file "data"), ("/s", .file "src"), ("/", .dir)], ["/f"], false⟩
        ⟨"1.0.0", "h", [], [⟨"/s", "/f", "link", "new"⟩], ⟨1, 1, 0, 0⟩⟩
        ⟨false, true, false⟩ "T1" =
      .ok (⟨[("/f", .file "data"), ("/s", .file "src"), ("/", .dir),
              ("/f.backup.T1", .file "data")], ["/f"], false⟩, ⟨1, 0, 1⟩,
            [.failed "failed to remove /f"]) ∧
    Apply ⟨[("/f", .file "data"), ("/s", .file "src"), ("/", .dir),
              ("/f.backup.T1", .file "data")], ["/f"], false⟩
        ⟨"1.0.0", "h", [], [⟨"/s", "/f", "link", "new"⟩], ⟨1, 1, 0, 0⟩⟩
        ⟨false, true, false⟩ "T2" =
      .ok (⟨[("/f", .file "data"), ("/s", .file "src"), ("/", .dir),
              ("/f.backup.T1", .file "data"), ("/f.backup.T2", .file "data")],
            ["/f"], false⟩, ⟨1, 0, 1⟩,
            [.failed "failed to remove /f"]) ∧
    (⟨[("/f", .file "data"), ("/s", .file "src"), ("/", .dir),
        ("/f.backup.T1", .file "data"), ("/f.backup.T2", .file "data")],
      ["/f"], false⟩ : World) ≠
      ⟨[("/f", .file "data"), ("/s", .file "src"), ("/", .dir),
        ("/f.backup.T1", .file "data")], ["/f"], false⟩ :=
  ⟨by decide, by decide, by decide, by decide, by decide, by decide⟩

/-- **C6** (amended).  A link whose target is already the correct symlink
takes the `[SKIP]`-logged early return without any filesystem write (the
batch summary counts it under `success`).  Consequently applying a plan in a
state where every link is already correct (or its source missing) is a
complete no-op.  Applying the same plan twice is a second-run no-op only in
that situation; duplicate targets and failed-removal-with-backup runs break
it, as the counterexample shows. -/
theorem cdm_c6_second_run_noop_amended :
    (∀ (w : World) (t s : String) (opts : ApplyOptions) (now : String),
      IsCorrectSymlink w t s = true →
      CreateSymlink w t s opts now = (w, .alreadyLinked)) ∧
    (∀ (w : World) (p : Plan) (opts : ApplyOptions) (now : String),
      (∀ l ∈ p.links, IsCorrectSymlink w l.target l.source = true ∨
        statPath w l.source = .notExist) →
      ∃ s rs, Apply w p opts now = .ok (w, s, rs) ∧
        rs.all (fun r => match r with
          | .skippedSource => true
          | .applied .alreadyLinked => true
          | _ => false) = true) := by
  constructor
  · exact fun w t s opts now h => CreateSymlink_correct w t s opts now h
  · intro w p opts now h
    obtain ⟨rs, hfold, hall⟩ := applyFold_noop opts now p.links w h []
    exact ⟨summarize rs, rs, by rw [Apply_eq_fold, hfold]; rfl, hall⟩

/-- Witness for the amended C6: a one-link plan whose target is already the
correct symlink is re-applied without any change. -/
theorem cdm_c6_second_run_noop_amended_witness :
    CreateSymlink ⟨[("/src", .file "x"), ("/t", .symlink "/src")], [], true⟩
        "/t" "/src" ⟨false, true, false⟩ "T" =
      (⟨[("/src", .file "x"), ("/t", .symlink "/src")], [], true⟩, .alreadyLinked) ∧
    ∃ s rs,
      Apply ⟨[("/src", .file "x"), ("/t", .symlink "/src")], [], true⟩
          ⟨"1.0.0", "h", [], [⟨"/src", "/t", "link", "new"⟩], ⟨1, 1, 0, 0⟩⟩
          ⟨false, false, false⟩ "T" =
        .ok (⟨[("/src", .file "x"), ("/t", .symlink "/src")], [], true⟩, s, rs) ∧
      rs.all (fun r => match r with
        | .skippedSource => true
        | .applied .alreadyLinked => true
        | _ => false) = true :=
  ⟨cdm_c6_second_run_noop_amended.1 _ "/t" "/src" _ "T" (by decide),
   cdm_c6_second_run_noop_amended.2 _ _ _ "T" (by decide)⟩

/-- **C7** (confirmed).  `Apply` never returns an error: every link is
visited exactly once, each is counted either as a success or as a skip, and
the `error` return is `nil` by construction.  The second conjunct evaluates
a batch whose first link fails fatally (denied removal, failing sudo): the
second link is still processed and the call still returns `.ok`. -/
theorem cdm_c7_per_link_failures_isolated :
    (∀ (w : World) (p : Plan) (opts : ApplyOptions) (now : String),
      ∃ w' s rs, Apply w p opts now = .ok (w', s, rs) ∧
        s.total = p.links.length ∧ s.success + s.skipped = s.total ∧
        rs.length = p.links.length) ∧
    Apply ⟨[("/s1", .file "a"), ("/s2", .file "b"), ("/", .dir),
            ("/t1", .file "old")], ["/t1"], false⟩
        ⟨"1.0.0", "h", [], [⟨"/s1", "/t1", "link", "new"⟩, ⟨"/s2", "/t2", "link", "new"⟩],
          ⟨2, 2, 0, 0⟩⟩ ⟨false, false, false⟩ "T" =
      .ok (⟨[("/s1", .file "a"), ("/s2", .file "b"), ("/", .dir),
              ("/t1", .file "old"), ("/t2", .symlink "/s2")], ["/t1"], false⟩,
            ⟨2, 1, 1⟩, [.failed "failed to remove /t1", .applied .created]) := by
  constructor
  · intro w p opts now
    refine ⟨(applyFold opts now p.links (w, [])).1,
      summarize (applyFold opts now p.links (w, [])).2,
      (applyFold opts now p.links (w, [])).2,
      Apply_eq_fold w p opts now, ?_, summarize_total _, ?_⟩
    · show (applyFold opts now p.links (w, [])).2.length = p.links.length
      rw [applyFold_length]
      simp
    · rw [applyFold_length]
      simp
  · decide

/-- **C8** (confirmed).  `checkLink` classifies by exactly the claimed
first-match cascade (source missing, then target missing, then
not-a-symlink, then wrong link value, else OK), and `CheckPlan`'s `allOK`
is true iff every per-link result has status OK. -/
theorem cdm_c8_checker_classification :
    (∀ (w : World) (l : Link), (checkLink w l).status = checkStatusSpec w l) ∧
    (∀ (w : World) (p : Plan),
      (CheckPlan w p).allOK =
        (CheckPlan w p).results.all (fun r => r.status == .ok)) :=
  ⟨checkLink_status_spec, CheckPlan_allOK⟩

/-- **C9** (confirmed).  Both the applier's already-correct test and the
checker compare the raw stored link value with the link's source by exact
string equality — no normalisation, no resolution.  The concrete conjunct
shows a target symlink storing `"/alias"`, a path that resolves to the very
same file as the source `"/a/f"`: the applier still re-creates the link and
the checker still classifies it WRONG_LINK. -/
theorem cdm_c9_raw_string_compare :
    (∀ (w : World) (t s v : String), getNode w t = some (.symlink v) →
      (IsCorrectSymlink w t s = true ↔ v = s)) ∧
    (∀ (w : World) (l : Link) (v : String), statPath w l.source ≠ .notExist →
      getNode w l.target = some (.symlink v) → v ≠ l.source →
      (checkLink w l).status = .wrongLink ∧
      (checkLink w l).detail = "points to: " ++ v) ∧
    (statPath ⟨[("/a/f", .file "x"), ("/alias", .symlink "/a/f"),
        ("/t", .symlink "/alias"), ("/", .dir)], [], true⟩ "/alias" =
      statPath ⟨[("/a/f", .file "x"), ("/alias", .symlink "/a/f"),
        ("/t", .symlink "/alias"), ("/", .dir)], [], true⟩ "/a/f" ∧
     IsCorrectSymlink ⟨[("/a/f", .file "x"), ("/alias", .symlink "/a/f"),
        ("/t", .symlink "/alias"), ("/", .dir)], [], true⟩ "/t" "/a/f" = false ∧
     CreateSymlink ⟨[("/a/f", .file "x"), ("/alias", .symlink "/a/f"),
        ("/t", .symlink "/alias"), ("/", .dir)], [], true⟩ "/t" "/a/f"
        ⟨false, false, false⟩ "T" =
      (⟨[("/a/f", .file "x"), ("/alias", .symlink "/a/f"), ("/", .dir),
         ("/t", .symlink "/a/f")], [], true⟩, .created)) := by
  refine ⟨?_, ?_, by decide, by decide, by decide⟩
  · intro w t s v hv
    unfold IsCorrectSymlink IsSymlink ReadSymlink
    rw [hv]
    simp
  · intro w l v hs hg hv
    refine ⟨?_, ?_⟩ <;> simp [checkLink, hs, hg, hv]

/-- Witness for C9 at the alias world. -/
theorem cdm_c9_raw_string_compare_witness :
    (IsCorrectSymlink ⟨[("/a/f", .file "x"), ("/alias", .symlink "/a/f"),
        ("/t", .symlink "/alias"), ("/", .dir)], [], true⟩ "/t" "/a/f" = true ↔
      "/alias" = "/a/f") ∧
    (checkLink ⟨[("/a/f", .file "x"), ("/alias", .symlink "/a/f"),
        ("/t", .symlink "/alias"), ("/", .dir)], [], true⟩
      ⟨"/a/f", "/t", "link", "new"⟩).status = .wrongLink :=
  ⟨cdm_c9_raw_string_compare.1 _ "/t" "/a/f" "/alias" (by decide),
   (cdm_c9_raw_string_compare.2.1 _ ⟨"/a/f", "/t", "link", "new"⟩ "/alias"
     (by decide) (by decide) (by decide)).1⟩

/-- **C10** (confirmed).  Plan generation on the empty source list succeeds:
validation is vacuous, nothing is scanned, no configs are loaded, and the
result is an empty plan with all-zero statistics. -/
theorem cdm_c10_empty_generate (home hn : String) :
    generate home hn [] [] =
      .ok { version := "1.0.0", hostname := hn, sources := [], links := [],
            stats := { total := 0, «new» := 0, override := 0, skip := 0 } } := rfl

end Cdm
